import Mathlib

/-!
Verification development for the DataLoader migration core
(src/packages/appwrite-utils-cli/src/migrations/dataLoader.ts).

The TypeScript code is shallowly embedded: JavaScript runtime values are
modelled by the inductive type JsVal, JS objects by association lists in
insertion order, JS Maps by association lists in insertion order, fallible
or possibly-nonterminating code by Option with explicit fuel, and the
external identifier generator (ID.unique of node-appwrite) by a stream of
candidate identifiers passed as a parameter.
-/

namespace DataLoader

/-- A JavaScript runtime value as it flows through the DataLoader:
null, undefined, booleans, numbers (the data files hold integers; floats
play no role in the modelled code paths), strings, Date instances
(identified by their timestamp), arrays, and plain objects whose fields
are kept in insertion order. -/
inductive JsVal where
  | null : JsVal
  | undef : JsVal
  | bool (b : Bool) : JsVal
  | num (n : Int) : JsVal
  | str (s : String) : JsVal
  | date (t : Int) : JsVal
  | arr (elems : List JsVal) : JsVal
  | obj (fields : List (String × JsVal)) : JsVal

/-- Property read on a JS object modelled as an association list: the first
binding wins, a missing key reads as none (the caller decides whether that
means undefined). -/
def getField {α : Type} : List (String × α) → String → Option α
  | [], _ => none
  | (k', v) :: rest, k => if k' = k then some v else getField rest k

/-- Property write on a JS object modelled as an association list:
overwrite the first binding of the key in place, or append a new binding
(JS objects keep insertion order and assignment does not move a key). -/
def setField {α : Type} : List (String × α) → String → α → List (String × α)
  | [], k, v => [(k, v)]
  | (k', v') :: rest, k, v =>
      if k' = k then (k, v) :: rest else (k', v') :: setField rest k v

/-- JS truthiness of a value (null, undefined, false, 0 and the empty
string are falsy; every object, array and Date is truthy). -/
def jsTruthy : JsVal → Bool
  | .null => false
  | .undef => false
  | .bool b => b
  | .num n => n != 0
  | .str s => s ≠ ""
  | .date _ => true
  | .arr _ => true
  | .obj _ => true

/-- Whether a value is null or undefined (the two values the merge code
treats as nullish). -/
def isNullish : JsVal → Bool
  | .null => true
  | .undef => true
  | _ => false

/-- lodash _.isEmpty: arrays and strings are empty when their length is 0,
plain objects when they have no own enumerable keys, and values without
own enumerable string-keyed properties — null, undefined, numbers,
booleans and Date instances — are always considered empty. -/
def lodashIsEmpty : JsVal → Bool
  | .arr es => es.isEmpty
  | .str s => s.isEmpty
  | .obj fs => fs.isEmpty
  | .null => true
  | .undef => true
  | .num _ => true
  | .bool _ => true
  | .date _ => true

mutual

/-- JS template-literal string conversion of a value, as used by the
backtick comparisons in updateOldReferencesForNew. Arrays convert by
joining their elements with commas, null and undefined elements
converting to the empty string; plain objects convert to
"[object Object]". A Date converts to an environment-dependent string in
JS; it is modelled abstractly as a string injective in the timestamp
(no modelled code path converts a Date). -/
def jsToString : JsVal → String
  | .null => "null"
  | .undef => "undefined"
  | .bool b => if b then "true" else "false"
  | .num n => toString n
  | .str s => s
  | .date t => "[Date " ++ toString t ++ "]"
  | .arr es => String.intercalate "," (jsToStringItems es)
  | .obj _ => "[object Object]"

/-- Element-wise conversion used by JS Array.prototype.toString: null and
undefined elements become the empty string. -/
def jsToStringItems : List JsVal → List String
  | [] => []
  | .null :: vs => "" :: jsToStringItems vs
  | .undef :: vs => "" :: jsToStringItems vs
  | v :: vs => jsToString v :: jsToStringItems vs

end

/-! ## getCollectionKey (dataLoader.ts lines 86-89)

`getCollectionKey(name) { return name.toLowerCase().replace(" ", ""); }`

JavaScript String.prototype.replace with a string pattern replaces only
the FIRST occurrence of the pattern. -/

/-- Remove the first space of a character list, leaving any later spaces
in place — the behavior of the JS call replace applied to a single-space
string pattern and an empty replacement. -/
def removeFirstSpace : List Char → List Char
  | [] => []
  | c :: cs => if c = ' ' then cs else c :: removeFirstSpace cs

/-- Remove every space — the normalization the spec describes
("lower-cased, spaces stripped"). Used only to compare the spec's wording
with the code's actual normalization. -/
def removeAllSpaces : List Char → List Char
  | [] => []
  | c :: cs => if c = ' ' then removeAllSpaces cs else c :: removeAllSpaces cs

/-- The collection-key normalization of the code:
name.toLowerCase().replace(" ", "") — lower-case the characters, then
remove only the first space. -/
def getCollectionKey (name : String) : String :=
  String.mk (removeFirstSpace (name.toList.map Char.toLower))

/-- The collection-key normalization as the spec words it: lower-case and
strip all spaces. Declared only to state the refinement comparison. -/
def specCollectionKey (name : String) : String :=
  String.mk (removeAllSpaces (name.toList.map Char.toLower))

/-! ## checkMapValuesForId and getTrueUniqueId (dataLoader.ts lines 151-169)

checkMapValuesForId scans the per-collection old-ID-to-new-ID map in
insertion order and returns the first old ID whose assigned new ID equals
the candidate, or false when there is none. getTrueUniqueId draws a
candidate from ID.unique() and redraws while checkMapValuesForId returns
a truthy value. The generator is modelled as a stream of candidates
indexed by draw count, and the unbounded while loop by explicit fuel:
a none result means the loop did not finish within the given fuel. -/

/-- checkMapValuesForId: first key of the map whose value is the candidate
identifier, none when no value matches (the JS function returns the key,
or false). -/
def checkMapValuesForId (m : List (String × String)) (newId : String) : Option String :=
  (m.find? (fun p => p.2 = newId)).map Prod.fst

/-- JS truthiness of what checkMapValuesForId returned: false is falsy,
and a returned key is truthy exactly when it is a non-empty string. -/
def collisionTruthy : Option String → Bool
  | none => false
  | some k => k ≠ ""

/-- The redraw loop of getTrueUniqueId: draw candidate gen idx, redraw
while the collision check is truthy. Returns the chosen identifier and
the index of the next unused draw; none when fuel runs out. -/
def getTrueUniqueIdAux (gen : Nat → String) (m : List (String × String)) :
    Nat → Nat → Option (String × Nat)
  | 0, _ => none
  | fuel + 1, idx =>
      let id := gen idx
      if collisionTruthy (checkMapValuesForId m id) then
        getTrueUniqueIdAux gen m fuel (idx + 1)
      else
        some (id, idx + 1)

/-- getTrueUniqueId: the identifier chosen by the redraw loop starting at
draw index idx. -/
def getTrueUniqueId (gen : Nat → String) (m : List (String × String))
    (fuel idx : Nat) : Option String :=
  (getTrueUniqueIdAux gen m fuel idx).map Prod.fst

/-! ## mergeObjects (dataLoader.ts lines 101-133)

The merge starts from a spread copy of the source, then walks the update
object's keys: an array update value becomes the de-duplicated
concatenation of the source array (or nothing, when the source value is
not an array) with the update array; a non-null non-Date non-array object
update value is merged recursively; any other non-nullish update value
overwrites; a nullish update value is written only when the source value
is undefined. Property reads on null or undefined throw in JS, modelled
as a none result; the unbounded recursion is bounded by fuel. -/

/-- The own enumerable string-keyed properties copied by a JS object
spread. Spreading an object copies its fields, an array its elements
under their decimal indices, a string its characters under their decimal
indices; spreading null, undefined, a number, a boolean or a Date copies
nothing. -/
def spreadJs : JsVal → List (String × JsVal)
  | .obj fs => fs
  | .arr es => es.enum.map (fun p => (toString p.1, p.2))
  | .str s => s.toList.enum.map (fun p => (toString p.1, JsVal.str (String.mk [p.2])))
  | _ => []

/-- Object.keys of a value: throws (none) on null and undefined, returns
field names of an object, decimal indices of an array or string, and the
empty list for any other primitive. -/
def keysJs : JsVal → Option (List String)
  | .null => none
  | .undef => none
  | .obj fs => some (fs.map Prod.fst)
  | .arr es => some (es.enum.map (fun p => toString p.1))
  | .str s => some (s.toList.enum.map (fun p => toString p.1))
  | _ => some []

/-- JS property access v[k]: throws (none) on null and undefined; reads
the first binding of an object, an element or the length of an array or
string under canonical decimal indices, and undefined otherwise. -/
def getPropJs : JsVal → String → Option JsVal
  | .null, _ => none
  | .undef, _ => none
  | .obj fs, k => some ((getField fs k).getD .undef)
  | .arr es, k =>
      if k = "length" then some (.num es.length)
      else
        match k.toNat? with
        | some n => if toString n = k then some ((es.get? n).getD .undef) else some .undef
        | none => some .undef
  | .str s, k =>
      if k = "length" then some (.num s.length)
      else
        match k.toNat? with
        | some n =>
            if toString n = k then
              some (((s.toList.get? n).map (fun c => JsVal.str (String.mk [c]))).getD .undef)
            else some .undef
        | none => some .undef
  | _, _ => some (.undef)

/-- The SameValueZero comparison a JS Set uses when de-duplicating:
primitives compare by value; objects, arrays and Dates compare by
reference, and since every array element flowing through mergeObjects
comes from a distinct JSON-parsed or freshly built value, distinct
references are modelled as never equal. -/
def sameValueZero : JsVal → JsVal → Bool
  | .null, .null => true
  | .undef, .undef => true
  | .bool a, .bool b => a = b
  | .num a, .num b => a = b
  | .str a, .str b => a = b
  | _, _ => false

/-- Spreading an array through new Set: keep the first occurrence of each
element under SameValueZero, preserving order. -/
def setDedup (xs : List JsVal) : List JsVal :=
  xs.foldl (fun acc v => if acc.any (fun w => sameValueZero w v) then acc else acc ++ [v]) []

/-- One iteration of the Object.keys(update).forEach body of mergeObjects,
acting on the accumulated result fields. The nested mergeObjects call of
the object branch is abstracted as rec (the merge at one less unit of
fuel). -/
def mergeFieldStepJs (rec : JsVal → JsVal → Option JsVal) (source update : JsVal)
    (k : String) (acc : List (String × JsVal)) : Option (List (String × JsVal)) :=
  match getPropJs source k, getPropJs update k with
  | some sv, some uv =>
      match uv with
      | .arr ues =>
          let ses := match sv with | .arr es => es | _ => []
          some (setField acc k (.arr (setDedup (ses ++ ues))))
      | .obj ofs =>
          match rec sv (.obj ofs) with
          | none => none
          | some mv => some (setField acc k mv)
      | .null => match sv with | .undef => some (setField acc k .null) | _ => some acc
      | .undef => match sv with | .undef => some (setField acc k .undef) | _ => some acc
      | uv' => some (setField acc k uv')
  | _, _ => none

/-- The forEach loop of mergeObjects over the remaining update keys. -/
def mergeFieldsJs (rec : JsVal → JsVal → Option JsVal) (source update : JsVal) :
    List String → List (String × JsVal) → Option (List (String × JsVal))
  | [], acc => some acc
  | k :: ks, acc =>
      match mergeFieldStepJs rec source update k acc with
      | none => none
      | some acc' => mergeFieldsJs rec source update ks acc'

/-- mergeObjects(source, update) of the DataLoader, on a fuel budget for
its recursion: build the spread copy of the source, then process each
update key in order. none models a thrown TypeError (a property read on
null or undefined) or fuel exhaustion. -/
def mergeObjectsJs : Nat → JsVal → JsVal → Option JsVal
  | 0, _, _ => none
  | fuel + 1, source, update =>
      match keysJs update with
      | none => none
      | some keys =>
          (mergeFieldsJs (mergeObjectsJs fuel) source update keys (spreadJs source)).map
            JsVal.obj

/-! ## updateOldReferencesForNew (dataLoader.ts lines 400-483)

The general cross-collection lookup. For each staged record of each
collection and each idMapping of its import definitions, it takes the
record's context value at the mapping's source field, skips it when it is
falsy or lodash-empty, filters the target collection's staged records for
those whose context value at the target field is template-string-equal,
and writes the match's finalData (the whole list of matches' finalData
objects when the current finalData value at the destination field is an
array) into the record's finalData at fieldToSet, falling back to the
source field name. No match only logs and leaves the record unchanged. -/

/-- An idMapping of an import definition: the referencing source field,
the target collection's field to match, and the optional field to set.
The target collection name is carried by the caller choosing which staged
data to search. -/
structure IdMapping where
  sourceField : String
  targetField : String
  fieldToSet : Option String

/-- A staged record of the import map, reduced to the two objects the
reference resolver reads and writes: its context bag and its final
payload. -/
structure StagedItem where
  context : List (String × JsVal)
  finalData : List (String × JsVal)

instance : Inhabited StagedItem := ⟨⟨[], []⟩⟩

/-- The destination key of an idMapping:
idMapping.fieldToSet || idMapping.sourceField — the JS or-else also falls
back on an empty-string fieldToSet. -/
def fieldKey (m : IdMapping) : String :=
  match m.fieldToSet with
  | some s => if s = "" then m.sourceField else s
  | none => m.sourceField

/-- The referencing record's context value at the mapping's source field
(a missing key reads as undefined). -/
def ctxVal (item : StagedItem) (m : IdMapping) : JsVal :=
  (getField item.context m.sourceField).getD (.undef)

/-- The staged target records whose context value at the target field is
template-string-equal to the referencing record's source-field value. -/
def matchesOf (targets : List StagedItem) (item : StagedItem) (m : IdMapping) :
    List StagedItem :=
  targets.filter (fun d =>
    jsToString ((getField d.context m.targetField).getD .undef) = jsToString (ctxVal item m))

/-- Whether the record's current finalData value at a key is an array
(the Array.isArray test deciding between single match and all matches). -/
def currentIsArray (fs : List (String × JsVal)) (k : String) : Bool :=
  match getField fs k with
  | some (.arr _) => true
  | _ => false

/-- The body of updateOldReferencesForNew for one staged record and one
idMapping, searching the target collection's staged records. -/
def applyIdMapping (targets : List StagedItem) (item : StagedItem) (m : IdMapping) :
    StagedItem :=
  let valueToMatch := ctxVal item m
  if !jsTruthy valueToMatch || lodashIsEmpty valueToMatch then item
  else
    match matchesOf targets item m with
    | [] => item
    | f :: fs =>
        let key := fieldKey m
        if currentIsArray item.finalData key then
          { item with
            finalData := setField item.finalData key
              (.arr ((f :: fs).map (fun d => JsVal.obj d.finalData))) }
        else
          { item with finalData := setField item.finalData key (.obj f.finalData) }

/-! ## prepareCreateData (dataLoader.ts lines 925-1027)

The create pass of a non-identity collection, per raw item: draw a fresh
target identifier with getTrueUniqueId, build the context, transform the
item, and — when the import definition declares a primary key field — look
the stringified old identifier up in the per-collection
old-ID-to-new-ID map: a hit logs a duplicate-primary-key error and skips
the item entirely (continue), a miss registers the mapping. The item is
then validated (an invalid item is skipped after the mapping was already
registered) and finally staged. External transformation and validation
are parameters; the identifier generator is the candidate stream. -/

/-- The per-collection state the create pass reads and writes: the ID
Reconciliation Table (old-ID-to-new-ID map in insertion order), the staged
records, and the index of the next unused generator draw. -/
structure CreateState where
  idMap : List (String × String)
  staged : List StagedItem
  genIdx : Nat

/-- The environment of one create pass: candidate-identifier stream, fuel
for the redraw loop, the record transformer and validator (external
collaborators), the declared primary key field, and whether the import
map holds a stage for this collection (the currentData check). -/
structure CreateEnv where
  gen : Nat → String
  fuel : Nat
  transform : JsVal → List (String × JsVal)
  validate : List (String × JsVal) → List (String × JsVal) → Bool
  primaryKeyField : Option String
  dbId : String
  dbName : String
  collId : String
  collName : String
  hasStage : Bool

/-- createContext (dataLoader.ts lines 172-187): spread the raw item,
then the database, collection and document identifiers, with an empty
createdDoc. -/
def createContext (env : CreateEnv) (item : JsVal) (docId : String) :
    List (String × JsVal) :=
  [ ("dbId", JsVal.str env.dbId), ("dbName", JsVal.str env.dbName),
    ("collId", JsVal.str env.collId), ("collName", JsVal.str env.collName),
    ("docId", JsVal.str docId), ("createdDoc", JsVal.obj []) ].foldl
    (fun acc p => setField acc p.1 p.2) (spreadJs item)

/-- Spread-merge of two field lists, {...a, ...b}: later keys override. -/
def spreadMerge (a b : List (String × JsVal)) : List (String × JsVal) :=
  b.foldl (fun acc p => setField acc p.1 p.2) a

/-- One iteration of the prepareCreateData loop over the raw data. none
models the redraw loop not terminating within fuel. -/
def prepareCreateStep (env : CreateEnv) (s : CreateState) (item : JsVal) :
    Option CreateState :=
  match getTrueUniqueIdAux env.gen s.idMap env.fuel s.genIdx with
  | none => none
  | some (itemIdNew, idx') =>
      let context := createContext env item itemIdNew
      let transformedData := env.transform item
      match env.primaryKeyField with
      | some pk =>
          let oldId := jsToString ((getPropJs item pk).getD .undef)
          if (getField s.idMap oldId).isSome then
            -- duplicate primary key: log an error and continue
            some { s with genIdx := idx' }
          else
            let idMap' := s.idMap ++ [(oldId, itemIdNew)]
            let context' := spreadMerge context transformedData
            if !env.validate transformedData context' then
              some { s with idMap := idMap', genIdx := idx' }
            else if env.hasStage then
              some { idMap := idMap',
                     staged := s.staged ++ [⟨context', transformedData⟩],
                     genIdx := idx' }
            else
              some { s with idMap := idMap', genIdx := idx' }
      | none =>
          let context' := spreadMerge context transformedData
          if !env.validate transformedData context' then
            some { s with genIdx := idx' }
          else if env.hasStage then
            some { s with
                   staged := s.staged ++ [⟨context', transformedData⟩]
                   genIdx := idx' }
          else
            some { s with genIdx := idx' }

/-- The prepareCreateData loop over the whole raw data list. -/
def prepareCreateData (env : CreateEnv) : CreateState → List JsVal → Option CreateState
  | s, [] => some s
  | s, item :: items =>
      match prepareCreateStep env s item with
      | none => none
      | some s' => prepareCreateData env s' items

/-! ## Identity Deduplication Engine: prepareUserData (dataLoader.ts lines 659-729)

Per incoming identity record, after transformation and schema validation:
if the email is a present non-empty string already registered in the
email-to-user-ID map, its registered ID becomes the current winner,
otherwise the record's fresh candidate ID is registered under the email;
the same check then runs for the phone, overwriting the winner variable
when the phone is already registered; with no winner the candidate itself
wins. Finally the record's stringified primary-key value is appended to
the MergeTable bucket of the winner. A record is modelled by its
extracted email, phone and stringified primary-key value; the candidate
identifier drawn by getTrueUniqueId for the record is a parameter. -/

/-- One identity record as the deduplication logic sees it: the optional
email and phone of the validated transformed payload, and the stringified
primary-key value of the raw item. -/
structure UserRecord where
  email : Option String
  phone : Option String
  pk : String

/-- The engine's state: the email-to-user-ID and phone-to-user-ID indexes
and the MergeTable (mergedUserMap), all JS Maps modelled as association
lists in insertion order. -/
structure DedupState where
  emailMap : List (String × String)
  phoneMap : List (String × String)
  mergeMap : List (String × List String)

/-- The empty engine state at the start of a run (no pre-existing users
fetched). -/
def emptyDedup : DedupState := ⟨[], [], []⟩

/-- The dedup core of prepareUserData for one record with candidate
identifier newId: returns the updated state and the winning canonical
identifier (the existingId the function reports back). The JS falsiness
checks on existingId are kept: a hit on the empty string counts as no
winner, and an empty winning identifier is not pushed into the
MergeTable (both are unreachable for identifiers the program actually
registers; JS Map.set is setField, replace in place or append). -/
def prepareUserDataStep (newId : String) (r : UserRecord) (s : DedupState) :
    DedupState × String :=
  let emailHit :=
    match r.email with
    | some e => if e ≠ "" then getField s.emailMap e else none
    | none => none
  let emailMap' :=
    match r.email with
    | some e => if e ≠ "" ∧ (getField s.emailMap e).isNone
                then s.emailMap ++ [(e, newId)] else s.emailMap
    | none => s.emailMap
  let phoneHit :=
    match r.phone with
    | some p => if p ≠ "" then getField s.phoneMap p else none
    | none => none
  let phoneMap' :=
    match r.phone with
    | some p => if p ≠ "" ∧ (getField s.phoneMap p).isNone
                then s.phoneMap ++ [(p, newId)] else s.phoneMap
    | none => s.phoneMap
  let existingId :=
    match phoneHit.or emailHit with
    | some v => if v = "" then newId else v
    | none => newId
  let bucket := (getField s.mergeMap existingId).getD []
  let mergeMap' :=
    if existingId = "" then s.mergeMap
    else setField s.mergeMap existingId (bucket ++ [r.pk])
  (⟨emailMap', phoneMap', mergeMap'⟩, existingId)

/-- The engine over an ordered list of identity records: record number i
is processed with candidate identifier cands i (the identifier
prepareUserCollectionCreateData draws for it via getTrueUniqueId). -/
def runEngineAux (cands : Nat → String) : List UserRecord → Nat → DedupState → DedupState
  | [], _, s => s
  | r :: rs, i, s => runEngineAux cands rs (i + 1) (prepareUserDataStep (cands i) r s).1

/-- The Identity Deduplication Engine on an ordered input list, from a
given initial state, drawing candidate identifiers from the stream. -/
def runEngine (cands : Nat → String) (records : List UserRecord) (s : DedupState) :
    DedupState :=
  runEngineAux cands records 0 s

/-- The number of distinct MergeTable buckets containing a given source
identifier, counting multiplicity across buckets. -/
def bucketCount (m : List (String × List String)) (x : String) : Nat :=
  (m.map (fun p => p.2.count x)).sum

/-- Decidable check that the buckets of distinct canonical identifiers
are pairwise disjoint. -/
def pairwiseDisjointBuckets : List (String × List String) → Bool
  | [] => true
  | (k, b) :: rest =>
      rest.all (fun p => k = p.1 || b.all (fun x => !p.2.contains x)) &&
        pairwiseDisjointBuckets rest

/-! ## start (dataLoader.ts lines 279-347): pipeline phase ordering

For the database whose identifier matches, start runs every collection's
create definitions (prepareCreateData, or prepareUserCollectionCreateData
for the users collection) and then its update definitions
(prepareUpdateData, skipped when the import map has no stage), collection
by collection, and only afterwards awaits dealWithMergedUsers (the
identity-merge rewrite) followed by updateOldReferencesForNew (the
general cross-collection lookup). The run is modelled as the sequence of
pass events start executes. -/

/-- The kind of an import definition: `def.type === "create" || !def.type`
selects the create pass, `def.type === "update"` the update pass. -/
inductive DefKind where
  | create : DefKind
  | update : DefKind
deriving DecidableEq

/-- One event of a pipeline run. -/
inductive PipelineEvent where
  | createPass (collection : String) : PipelineEvent
  | userCreatePass (collection : String) : PipelineEvent
  | updatePass (collection : String) : PipelineEvent
  | mergedUsersRewrite : PipelineEvent
  | generalLookup : PipelineEvent
deriving DecidableEq

/-- Whether an event is a create or update preparation pass. -/
def isPassEvent : PipelineEvent → Bool
  | .createPass _ => true
  | .userCreatePass _ => true
  | .updatePass _ => true
  | _ => false

/-- A configured collection: its display name and its import definitions
reduced to their kinds (an absent type means create). -/
structure CollCfg where
  name : String
  importDefs : List DefKind

/-- A configured database. -/
structure DbCfg where
  id : String

/-- The slice of AppwriteConfig that start consults: the databases, the
optional collection list, and the users collection name. -/
structure MigrationCfg where
  databases : List DbCfg
  collections : Option (List CollCfg)
  usersCollectionName : String

/-- The pass events start executes for one collection: a create pass per
create definition (the users-collection variant when the normalized name
matches the users collection), then an update pass per update definition,
skipped entirely when the import map holds no stage for the collection. -/
def collectionEvents (usersKey : String) (hasStage : String → Bool) (c : CollCfg) :
    List PipelineEvent :=
  (c.importDefs.filter (fun d => d = DefKind.create)).map (fun _ =>
    if getCollectionKey c.name = usersKey then PipelineEvent.userCreatePass c.name
    else PipelineEvent.createPass c.name) ++
  (c.importDefs.filter (fun d => d = DefKind.update)).map (fun _ =>
    PipelineEvent.updatePass c.name) |>.filter (fun e =>
      match e with
      | .updatePass cn => hasStage (getCollectionKey cn)
      | _ => true)

/-- The event sequence of start(dbId): for each configured database whose
identifier matches, every collection's passes in order, then the
identity-merge rewrite, then the general lookup. -/
def startTrace (cfg : MigrationCfg) (dbId : String) (hasStage : String → Bool) :
    List PipelineEvent :=
  (cfg.databases.map (fun db =>
    if db.id = dbId then
      match cfg.collections with
      | none => []
      | some cols =>
          (cols.map (collectionEvents (getCollectionKey cfg.usersCollectionName) hasStage)).flatten
            ++ [PipelineEvent.mergedUsersRewrite, PipelineEvent.generalLookup]
    else [])).flatten

/-! ## Heap model of mergeObjects for its frame property

To state that mergeObjects never mutates its arguments, the same function
is embedded once more against an explicit heap: objects, arrays and Dates
live in a store addressed by allocation index, and values hold references
into it. mergeObjects only ever writes into the locally allocated result
object (const result = ...source and the result[key] assignments) and
allocates fresh arrays for the array branch, so every pre-existing store
entry — in particular the source and update objects — is left untouched,
and the returned reference is a fresh allocation. -/

/-- A heap-level JS value: a primitive, or a reference into the store. -/
inductive HVal where
  | hnull : HVal
  | hundef : HVal
  | hbool (b : Bool) : HVal
  | hnum (n : Int) : HVal
  | hstr (s : String) : HVal
  | href (a : Nat) : HVal
deriving DecidableEq

/-- A heap entity: a plain object with ordered fields, an array, or a
Date instance. -/
inductive HObj where
  | hobj (fields : List (String × HVal)) : HObj
  | harr (elems : List HVal) : HObj
  | hdate (t : Int) : HObj

/-- The store: entity at address a is entry number a; allocation appends. -/
abbrev Store := List HObj

/-- Own enumerable properties copied by a spread, heap level. A dangling
reference (impossible at runtime) is a stuck none. -/
def spreadH (s : Store) : HVal → Option (List (String × HVal))
  | .href a =>
      match s.get? a with
      | some (.hobj fs) => some fs
      | some (.harr es) => some (es.enum.map (fun p => (toString p.1, p.2)))
      | some (.hdate _) => some []
      | none => none
  | .hstr str => some (str.toList.enum.map (fun p => (toString p.1, HVal.hstr (String.mk [p.2]))))
  | _ => some []

/-- Object.keys, heap level: throws (none) on null and undefined. -/
def keysH (s : Store) : HVal → Option (List String)
  | .hnull => none
  | .hundef => none
  | .href a =>
      match s.get? a with
      | some (.hobj fs) => some (fs.map Prod.fst)
      | some (.harr es) => some (es.enum.map (fun p => toString p.1))
      | some (.hdate _) => some []
      | none => none
  | .hstr str => some (str.toList.enum.map (fun p => toString p.1))
  | _ => some []

/-- Property access v[k], heap level: throws (none) on null and
undefined; a Date has no own enumerable properties. -/
def getPropH (s : Store) : HVal → String → Option HVal
  | .hnull, _ => none
  | .hundef, _ => none
  | .href a, k =>
      match s.get? a with
      | some (.hobj fs) => some ((getField fs k).getD .hundef)
      | some (.harr es) =>
          if k = "length" then some (.hnum es.length)
          else
            match k.toNat? with
            | some n => if toString n = k then some ((es.get? n).getD .hundef) else some .hundef
            | none => some .hundef
      | some (.hdate _) => some .hundef
      | none => none
  | .hstr str, k =>
      if k = "length" then some (.hnum str.length)
      else
        match k.toNat? with
        | some n =>
            if toString n = k then
              some (((str.toList.get? n).map (fun c => HVal.hstr (String.mk [c]))).getD .hundef)
            else some .hundef
        | none => some .hundef
  | _, _ => some (.hundef)

/-- Whether a heap value is a reference to an array (Array.isArray). -/
def isArrRef (s : Store) : HVal → Bool
  | .href a => match s.get? a with | some (.harr _) => true | _ => false
  | _ => false

/-- The array elements a heap value contributes as the merge's
sourceArray: its elements when it references an array, nothing
otherwise. -/
def arrElemsOf (s : Store) : HVal → List HVal
  | .href a => match s.get? a with | some (.harr es) => es | _ => []
  | _ => []

/-- Spreading through new Set, heap level: SameValueZero is plain
equality of heap values — references compare by address, which is exact
reference semantics. -/
def setDedupH (xs : List HVal) : List HVal :=
  xs.foldl (fun acc v => if acc.contains v then acc else acc ++ [v]) []

/-- One iteration of the forEach body, heap level: the array branch
allocates the de-duplicated concatenation as a fresh array, the object
branch recurses (rec is the merge at one less unit of fuel), the others
only write into the local result fields. -/
def mergeFieldStepH (rec : Store → HVal → HVal → Option (Store × HVal))
    (s : Store) (source update : HVal) (k : String)
    (acc : List (String × HVal)) : Option (Store × List (String × HVal)) :=
  match getPropH s source k, getPropH s update k with
  | some sv, some uv =>
      if isArrRef s uv then
        let ses := arrElemsOf s sv
        let ues := arrElemsOf s uv
        some (s ++ [.harr (setDedupH (ses ++ ues))], setField acc k (.href s.length))
      else
        match uv with
        | .href a =>
            match s.get? a with
            | some (.hobj _) =>
                match rec s sv uv with
                | none => none
                | some (s', mv) => some (s', setField acc k mv)
            | _ => some (s, setField acc k uv)
        | .hnull => match sv with
            | .hundef => some (s, setField acc k .hnull)
            | _ => some (s, acc)
        | .hundef => match sv with
            | .hundef => some (s, setField acc k .hundef)
            | _ => some (s, acc)
        | uv' => some (s, setField acc k uv')
  | _, _ => none

/-- The forEach loop over the remaining update keys, heap level,
threading the store. -/
def mergeFieldsH (rec : Store → HVal → HVal → Option (Store × HVal))
    (source update : HVal) :
    List String → Store → List (String × HVal) → Option (Store × List (String × HVal))
  | [], s, acc => some (s, acc)
  | k :: ks, s, acc =>
      match mergeFieldStepH rec s source update k acc with
      | none => none
      | some (s', acc') => mergeFieldsH rec source update ks s' acc'

/-- mergeObjects against the explicit heap, on a fuel budget: spread the
source into the locally built result fields, process the update keys,
and allocate the result object. -/
def mergeObjectsH : Nat → Store → HVal → HVal → Option (Store × HVal)
  | 0, _, _, _ => none
  | fuel + 1, s, source, update =>
      match spreadH s source with
      | none => none
      | some init =>
          match keysH s update with
          | none => none
          | some keys =>
              match mergeFieldsH (mergeObjectsH fuel) source update keys s init with
              | none => none
              | some (s', fields) => some (s' ++ [.hobj fields], .href s'.length)

/-! ## Association-list helper lemmas -/

theorem getField_setField_self {α : Type} (fs : List (String × α)) (k : String) (v : α) :
    getField (setField fs k v) k = some v := by
  induction fs with
  | nil => simp [setField, getField]
  | cons p rest ih =>
      by_cases hk : p.1 = k
      · simp [setField, hk, getField]
      · simp [setField, hk, getField, ih]

theorem getField_setField_ne {α : Type} (fs : List (String × α)) (k k' : String) (v : α)
    (h : k' ≠ k) : getField (setField fs k v) k' = getField fs k' := by
  induction fs with
  | nil =>
      simp only [setField, getField]
      rw [if_neg (fun hh : k = k' => h hh.symm)]
  | cons p rest ih =>
      by_cases hk : p.1 = k
      · simp only [setField, if_pos hk, getField]
        rw [if_neg (fun hh : k = k' => h hh.symm),
          if_neg (fun hh : p.1 = k' => h (hh.symm.trans hk))]
      · simp only [setField, if_neg hk, getField]
        by_cases hk' : p.1 = k'
        · rw [if_pos hk', if_pos hk']
        · rw [if_neg hk', if_neg hk', ih]

theorem getField_eq_none_iff {α : Type} (fs : List (String × α)) (k : String) :
    getField fs k = none ↔ k ∉ fs.map Prod.fst := by
  induction fs with
  | nil => simp [getField]
  | cons p rest ih =>
      simp only [getField, List.map_cons, List.mem_cons]
      by_cases hk : p.1 = k
      · simp [hk]
      · rw [if_neg hk, ih]
        constructor
        · intro hnotin hor
          rcases hor with hh | hh
          · exact hk hh.symm
          · exact hnotin hh
        · intro hnot hmem
          exact hnot (Or.inr hmem)

theorem mem_of_getField_some {α : Type} {fs : List (String × α)} {k : String} {v : α}
    (h : getField fs k = some v) : k ∈ fs.map Prod.fst := by
  by_contra hmem
  rw [← getField_eq_none_iff] at hmem
  rw [hmem] at h
  exact Option.noConfusion h

/-! ## Claim C8: collection-key normalization -/

theorem removeAllSpaces_of_no_space (l : List Char) (h : ' ' ∉ l) :
    removeAllSpaces l = l := by
  induction l with
  | nil => rfl
  | cons c cs ih =>
      rw [List.mem_cons] at h
      push_neg at h
      have hc : c ≠ ' ' := fun hh => h.1 hh.symm
      simp [removeAllSpaces, hc, ih h.2]

theorem removeFirstSpace_of_le_one (l : List Char) (h : l.count ' ' ≤ 1) :
    removeFirstSpace l = removeAllSpaces l := by
  induction l with
  | nil => rfl
  | cons c cs ih =>
      rw [List.count_cons] at h
      by_cases hc : c = ' '
      · have hbeq : (c == ' ') = true := by simp [hc]
        rw [hbeq] at h
        simp at h
        have hcount : cs.count ' ' = 0 := by omega
        have hmem : ' ' ∉ cs := by
          rw [← List.count_eq_zero]
          exact hcount
        simp [removeFirstSpace, removeAllSpaces, hc,
          removeAllSpaces_of_no_space cs hmem]
      · have hbeq : (c == ' ') = false := by
          simp only [beq_eq_false_iff_ne, ne_eq]
          exact hc
        rw [hbeq] at h
        simp only [Bool.false_eq_true, if_false, Nat.add_zero] at h
        simp [removeFirstSpace, removeAllSpaces, hc, ih h]

/-- C8 counterexample: the display names "a b c" and "abc" differ only in
whitespace (identical once all spaces are stripped), yet the code's
normalization maps them to different collection keys, because
String.prototype.replace removes only the first space. -/
theorem getCollectionKey_two_spaces_cex :
    specCollectionKey "a b c" = specCollectionKey "abc" ∧
      getCollectionKey "a b c" ≠ getCollectionKey "abc" := by
  constructor
  · decide
  · decide

/-- C8 amended: the normalization lower-cases the name and removes only
its first space; lookups therefore coincide for names differing only in
letter case, and for names differing only in whitespace provided each
name contains at most one space. -/
theorem getCollectionKey_normalization :
    (∀ s t : String, s.toList.map Char.toLower = t.toList.map Char.toLower →
      getCollectionKey s = getCollectionKey t) ∧
    (∀ s t : String, (s.toList.map Char.toLower).count ' ' ≤ 1 →
      (t.toList.map Char.toLower).count ' ' ≤ 1 →
      specCollectionKey s = specCollectionKey t → getCollectionKey s = getCollectionKey t) := by
  constructor
  · intro s t h
    unfold getCollectionKey
    rw [h]
  · intro s t hs ht hspec
    unfold getCollectionKey
    rw [removeFirstSpace_of_le_one _ hs, removeFirstSpace_of_le_one _ ht]
    exact hspec

/-- C8 witness: both parts of the amended normalization theorem at
concrete names. -/
theorem getCollectionKey_normalization_witness :
    getCollectionKey "A b" = getCollectionKey "a B" ∧
      getCollectionKey "Ab Cd" = getCollectionKey "abc d" := by
  constructor
  · exact getCollectionKey_normalization.1 "A b" "a B" (by decide)
  · exact getCollectionKey_normalization.2 "Ab Cd" "abc d" (by decide) (by decide) (by decide)

/-! ## Claim C1: freshness of getTrueUniqueId -/

/-- C1 counterexample: with an old-ID-to-new-ID table whose entry has the
empty string as its source key, the redraw loop accepts a colliding
candidate, because the JS while condition receives the matching key
itself and the empty-string key is falsy. -/
theorem getTrueUniqueId_collision_cex :
    getTrueUniqueId (fun _ => "x") [("", "x")] 1 0 = some "x" ∧
      "x" ∈ [("", "x")].map Prod.snd := by
  constructor
  · rfl
  · simp

/-- C1 amended: for tables all of whose source keys are non-empty — every
table the program builds stringifies a primary-key value into the key —
an identifier returned by getTrueUniqueId is never among the already
assigned identifiers of the collection, the candidate being re-drawn on
every collision. -/
theorem getTrueUniqueId_fresh (gen : Nat → String) (m : List (String × String))
    (hkeys : ∀ p ∈ m, p.1 ≠ "") :
    ∀ fuel idx id, getTrueUniqueId gen m fuel idx = some id → id ∉ m.map Prod.snd := by
  intro fuel
  induction fuel with
  | zero => intro idx id h; exact absurd h (by simp [getTrueUniqueId, getTrueUniqueIdAux])
  | succ f ih =>
      intro idx id h
      simp only [getTrueUniqueId, getTrueUniqueIdAux] at h
      by_cases hc : collisionTruthy (checkMapValuesForId m (gen idx)) = true
      · rw [if_pos hc] at h
        exact ih (idx + 1) id h
      · rw [if_neg hc] at h
        have hid : gen idx = id := by simpa using h
        subst hid
        cases hfind : checkMapValuesForId m (gen idx) with
        | none =>
            unfold checkMapValuesForId at hfind
            rw [Option.map_eq_none', List.find?_eq_none] at hfind
            simp only [decide_eq_true_eq] at hfind
            intro hmem
            rw [List.mem_map] at hmem
            obtain ⟨p, hp, hpv⟩ := hmem
            exact hfind p hp hpv
        | some k =>
            rw [hfind] at hc
            have hk : k = "" := by
              by_contra hne
              exact hc (by simp [collisionTruthy, hne])
            unfold checkMapValuesForId at hfind
            rw [Option.map_eq_some'] at hfind
            obtain ⟨p, hp, hpk⟩ := hfind
            exact absurd (hpk.trans hk) (hkeys p (List.mem_of_find?_eq_some hp))

/-- C1 witness: a table with the single non-empty source key "a" mapping
to "x"; the stream first draws the colliding "x", the loop re-draws and
returns the fresh "y", which is indeed not an assigned identifier. -/
theorem getTrueUniqueId_fresh_witness :
    (∀ p ∈ [("a", "x")], p.1 ≠ "") ∧
      "y" ∉ [("a", "x")].map Prod.snd := by
  refine ⟨by decide, ?_⟩
  exact getTrueUniqueId_fresh (fun n => if n = 0 then "x" else "y") [("a", "x")]
    (by decide) 2 0 "y" rfl

/-! ## Claim C6: phone lookup overwrites email lookup -/

/-- C6: when the record's email is registered to one identity and its
phone to a different one, the phone's identity wins: it is the canonical
identifier the step reports, the record's source identifier is appended
to the phone identity's MergeTable bucket, and (when the two winners
differ) the email identity's bucket is untouched. -/
theorem prepareUserDataStep_phone_wins (newId : String) (r : UserRecord) (s : DedupState)
    (e p idE idP : String)
    (he : r.email = some e) (hene : e ≠ "") (heHit : getField s.emailMap e = some idE)
    (hp : r.phone = some p) (hpne : p ≠ "") (hpHit : getField s.phoneMap p = some idP)
    (hidP : idP ≠ "") :
    (prepareUserDataStep newId r s).2 = idP ∧
      getField (prepareUserDataStep newId r s).1.mergeMap idP =
        some ((getField s.mergeMap idP).getD [] ++ [r.pk]) ∧
      (idE ≠ idP →
        getField (prepareUserDataStep newId r s).1.mergeMap idE = getField s.mergeMap idE) := by
  have hstep : prepareUserDataStep newId r s =
      (⟨s.emailMap, s.phoneMap,
        setField s.mergeMap idP ((getField s.mergeMap idP).getD [] ++ [r.pk])⟩, idP) := by
    unfold prepareUserDataStep
    rw [he, hp]
    simp [hene, hpne, heHit, hpHit, hidP, Option.or]
  refine ⟨by rw [hstep], by rw [hstep]; exact getField_setField_self _ _ _, ?_⟩
  intro hne
  rw [hstep]
  exact getField_setField_ne _ _ _ _ hne

/-- C6 witness: email "a@x" registered to "u1", phone "555" registered to
"u2"; the step records "u2" as canonical and appends the record's source
identifier "7" to u2's bucket. -/
theorem prepareUserDataStep_phone_wins_witness :
    (prepareUserDataStep "c9" ⟨some "a@x", some "555", "7"⟩
        ⟨[("a@x", "u1")], [("555", "u2")], [("u2", ["3"])]⟩).2 = "u2" ∧
      getField (prepareUserDataStep "c9" ⟨some "a@x", some "555", "7"⟩
        ⟨[("a@x", "u1")], [("555", "u2")], [("u2", ["3"])]⟩).1.mergeMap "u2" =
        some (["3"] ++ ["7"]) := by
  have h := prepareUserDataStep_phone_wins "c9" ⟨some "a@x", some "555", "7"⟩
    ⟨[("a@x", "u1")], [("555", "u2")], [("u2", ["3"])]⟩ "a@x" "555" "u1" "u2"
    rfl (by decide) rfl rfl (by decide) rfl (by decide)
  exact ⟨h.1, h.2.1⟩

/-! ## Claim C5: what the MergeTable is a function of -/

/-- C5 counterexample: the same single-record input, processed twice from
the same (empty) initial state, yields different MergeTables when the
identifier generator draws different candidates — in the program the
candidates come from the nondeterministic ID.unique(), so the MergeTable
is not a pure function of the input order alone. -/
theorem runEngine_generator_dependent_cex :
    (runEngine (fun _ => "A") [⟨some "a@x", none, "1"⟩] emptyDedup).mergeMap ≠
      (runEngine (fun _ => "B") [⟨some "a@x", none, "1"⟩] emptyDedup).mergeMap := by
  decide

theorem runEngineAux_congr (c1 c2 : Nat → String) :
    ∀ (recs : List UserRecord) (i : Nat) (s : DedupState),
      (∀ j, i ≤ j → j < i + recs.length → c1 j = c2 j) →
      runEngineAux c1 recs i s = runEngineAux c2 recs i s := by
  intro recs
  induction recs with
  | nil => intro i s _; rfl
  | cons r rs ih =>
      intro i s h
      unfold runEngineAux
      rw [h i (le_refl i) (by simp only [List.length_cons]; omega)]
      exact ih (i + 1) _ (fun j hj1 hj2 => by
        refine h j (by omega) ?_
        simp only [List.length_cons]
        omega)

/-- C5 amended: the MergeTable is a pure function of the ordered input
list TOGETHER WITH the sequence of candidate identifiers drawn for it
(and the initial state): two runs agreeing on the first |records| draws
produce identical engine states, so re-running is reproducible exactly
when the generator draws are. -/
theorem runEngine_pure_in_input_and_draws (c1 c2 : Nat → String)
    (records : List UserRecord) (s : DedupState)
    (h : ∀ j, j < records.length → c1 j = c2 j) :
    runEngine c1 records s = runEngine c2 records s :=
  runEngineAux_congr c1 c2 records 0 s (fun j _ hj2 => h j (by omega))

/-- C5 witness: two generator streams agreeing on the single draw the
one-record input consumes give the same engine state. -/
theorem runEngine_pure_witness :
    runEngine (fun n => if n = 0 then "A" else "B") [⟨some "a@x", none, "1"⟩] emptyDedup =
      runEngine (fun _ => "A") [⟨some "a@x", none, "1"⟩] emptyDedup :=
  runEngine_pure_in_input_and_draws _ _ _ _ (by decide)

/-! ## Claim C7: disjointness of MergeTable buckets -/

/-- C7 counterexample: two identity records with distinct fresh emails
but the same source identifier "1": each lands in its own bucket, so "1"
appears in the buckets of the two distinct canonical identifiers "c0"
and "c1" — bucket disjointness fails for inputs with duplicated
primary-key values (prepareUserData appends to the MergeTable before
prepareUserCollectionCreateData's duplicate-primary-key check runs). -/
theorem mergeTable_shared_pk_cex :
    "c0" ≠ "c1" ∧
      "1" ∈ ((getField (runEngine (fun n => if n = 0 then "c0" else "c1")
        [⟨some "a@x", none, "1"⟩, ⟨some "b@x", none, "1"⟩] emptyDedup).mergeMap
          "c0").getD []) ∧
      "1" ∈ ((getField (runEngine (fun n => if n = 0 then "c0" else "c1")
        [⟨some "a@x", none, "1"⟩, ⟨some "b@x", none, "1"⟩] emptyDedup).mergeMap
          "c1").getD []) := by
  decide

theorem bucketCount_setField_bucket (m : List (String × List String)) (k q x : String) :
    bucketCount (setField m k ((getField m k).getD [] ++ [q])) x =
      bucketCount m x + [q].count x := by
  induction m with
  | nil => simp [setField, getField, bucketCount]
  | cons hd rest ih =>
      by_cases hk : hd.1 = k
      · simp only [getField, if_pos hk, Option.getD_some]
        have : setField (hd :: rest) k (hd.2 ++ [q]) = (k, hd.2 ++ [q]) :: rest := by
          simp [setField, hk]
        rw [this]
        simp [bucketCount, List.count_append]
        omega
      · have hset : setField (hd :: rest) k ((getField (hd :: rest) k).getD [] ++ [q]) =
            hd :: setField rest k ((getField rest k).getD [] ++ [q]) := by
          simp [setField, getField, hk]
        rw [hset]
        simp only [bucketCount, List.map_cons, List.sum_cons] at ih ⊢
        omega

theorem bucketCount_step_le (newId : String) (r : UserRecord) (s : DedupState) (x : String) :
    bucketCount (prepareUserDataStep newId r s).1.mergeMap x ≤
      bucketCount s.mergeMap x + [r.pk].count x := by
  unfold prepareUserDataStep
  dsimp only
  split
  · exact Nat.le_add_right _ _
  · rw [bucketCount_setField_bucket]

theorem bucketCount_runEngineAux (cands : Nat → String) :
    ∀ (recs : List UserRecord) (i : Nat) (s : DedupState) (x : String),
      bucketCount (runEngineAux cands recs i s).mergeMap x ≤
        bucketCount s.mergeMap x + (recs.map UserRecord.pk).count x := by
  intro recs
  induction recs with
  | nil => intro i s x; simp [runEngineAux]
  | cons r rs ih =>
      intro i s x
      unfold runEngineAux
      have h1 := ih (i + 1) (prepareUserDataStep (cands i) r s).1 x
      have h2 := bucketCount_step_le (cands i) r s x
      have h3 : ((r :: rs).map UserRecord.pk).count x =
          (rs.map UserRecord.pk).count x + [r.pk].count x := by
        simp [List.count_cons, List.count_singleton]
      omega

theorem count_le_bucketCount (x : String) :
    ∀ (m : List (String × List String)) (p : String × List String), p ∈ m →
      p.2.count x ≤ bucketCount m x := by
  intro m
  induction m with
  | nil => intro p hp; exact absurd hp (List.not_mem_nil p)
  | cons q rest ih =>
      intro p hp
      rcases List.mem_cons.mp hp with hh | hh
      · subst hh
        simp only [bucketCount, List.map_cons, List.sum_cons]
        exact Nat.le_add_right _ _
      · have := ih p hh
        simp only [bucketCount, List.map_cons, List.sum_cons] at this ⊢
        omega

theorem pairwiseDisjoint_of_count_le_one :
    ∀ (m : List (String × List String)), (∀ x, bucketCount m x ≤ 1) →
      pairwiseDisjointBuckets m = true := by
  intro m
  induction m with
  | nil => intro _; rfl
  | cons hd rest ih =>
      intro h
      have hsplit : ∀ x, bucketCount (hd :: rest) x =
          hd.2.count x + bucketCount rest x := by
        intro x
        simp [bucketCount, List.map_cons, List.sum_cons]
      unfold pairwiseDisjointBuckets
      rw [Bool.and_eq_true]
      constructor
      · rw [List.all_eq_true]
        intro p hp
        rw [Bool.or_eq_true]
        right
        rw [List.all_eq_true]
        intro x hx
        rw [Bool.not_eq_true']
        by_contra hcon
        rw [Bool.not_eq_false] at hcon
        have hxmem : x ∈ p.2 := by
          simpa using hcon
        have hb : 1 ≤ hd.2.count x := List.one_le_count_iff.mpr hx
        have hrest : 1 ≤ bucketCount rest x := by
          calc 1 ≤ p.2.count x := List.one_le_count_iff.mpr hxmem
            _ ≤ bucketCount rest x := count_le_bucketCount x rest p hp
        have := h x
        rw [hsplit x] at this
        omega
      · refine ih (fun x => ?_)
        have := h x
        rw [hsplit x] at this
        omega

/-- C7 amended: for inputs whose stringified primary-key values are
pairwise distinct (the well-formed case: the create pass itself treats a
repeated primary key as an error), every source identifier lands in at
most one canonical bucket: the MergeTable built from the empty state has
pairwise disjoint buckets. Inputs repeating a primary key violate the
invariant, as the counterexample shows. -/
theorem mergeTable_disjoint_of_nodup_pks (cands : Nat → String)
    (records : List UserRecord) (h : (records.map UserRecord.pk).Nodup) :
    pairwiseDisjointBuckets (runEngine cands records emptyDedup).mergeMap = true := by
  refine pairwiseDisjoint_of_count_le_one _ (fun x => ?_)
  have h1 := bucketCount_runEngineAux cands records 0 emptyDedup x
  have h2 : bucketCount emptyDedup.mergeMap x = 0 := rfl
  have h3 : (records.map UserRecord.pk).count x ≤ 1 :=
    List.nodup_iff_count_le_one.mp h x
  unfold runEngine
  omega

/-- C7 witness: two records with distinct primary keys and a shared email
collapse into one bucket holding both source identifiers; the resulting
MergeTable passes the disjointness check. -/
theorem mergeTable_disjoint_witness :
    pairwiseDisjointBuckets (runEngine (fun n => if n = 0 then "c0" else "c1")
      [⟨some "a@x", none, "1"⟩, ⟨some "a@x", none, "2"⟩] emptyDedup).mergeMap = true :=
  mergeTable_disjoint_of_nodup_pks _ _ (by decide)

/-! ## Claim C4: duplicate primary key in a create pass is rejected -/

/-- C4: during the create pass of a non-identity collection, an item
whose stringified primary-key value is already a key of the collection's
ID Reconciliation Table is rejected: the step logs and skips it, leaving
the ID table and the staged records exactly as they were (only the
generator draw index advances), so the table still maps the primary key
to the first record's target identifier. -/
theorem prepareCreateStep_duplicate_rejected (env : CreateEnv) (s : CreateState)
    (item : JsVal) (pk prevId : String) (s' : CreateState)
    (hpk : env.primaryKeyField = some pk)
    (hdup : getField s.idMap (jsToString ((getPropJs item pk).getD .undef)) = some prevId)
    (hstep : prepareCreateStep env s item = some s') :
    s'.idMap = s.idMap ∧ s'.staged = s.staged ∧
      getField s'.idMap (jsToString ((getPropJs item pk).getD .undef)) = some prevId := by
  unfold prepareCreateStep at hstep
  cases hgen : getTrueUniqueIdAux env.gen s.idMap env.fuel s.genIdx with
  | none => rw [hgen] at hstep; exact absurd hstep (by simp)
  | some pr =>
      rw [hgen] at hstep
      rw [hpk] at hstep
      dsimp only at hstep
      rw [if_pos (by rw [hdup]; rfl)] at hstep
      have hs' : s' = { s with genIdx := pr.2 } := by
        cases hstep
        rfl
      subst hs'
      exact ⟨rfl, rfl, hdup⟩

/-- C4 witness: the table already maps primary key "7" to "old"; a second
item keyed 7 is skipped — table and staged data unchanged, "7" still
mapped to "old". -/
theorem prepareCreateStep_duplicate_rejected_witness :
    getField (⟨[("7", "old")], [], 0⟩ : CreateState).idMap "7" = some "old" ∧
      prepareCreateStep
        ⟨fun _ => "new1", 1, fun _ => [], fun _ _ => true, some "id",
          "db", "dbn", "coll", "colln", true⟩
        ⟨[("7", "old")], [], 0⟩ (.obj [("id", .num 7)]) =
        some ⟨[("7", "old")], [], 1⟩ := by
  refine ⟨?_, rfl⟩
  have h := prepareCreateStep_duplicate_rejected
    ⟨fun _ => "new1", 1, fun _ => [], fun _ _ => true, some "id",
      "db", "dbn", "coll", "colln", true⟩
    ⟨[("7", "old")], [], 0⟩ (.obj [("id", .num 7)]) "id" "old"
    ⟨[("7", "old")], [], 1⟩ rfl rfl rfl
  exact h.2.2

/-! ## Claim C2: the general cross-collection lookup -/

/-- C2 counterexample: the referencing record's source-field value is the
number 42 and a staged target record's context value at the target field
is string-equal to it, yet the lookup leaves the reference field unset:
lodash _.isEmpty is true for every number, so the mapping is skipped
before the target collection is even searched. -/
theorem applyIdMapping_numeric_skip_cex :
    jsToString ((getField (⟨[("origId", JsVal.num 42)], [("x", JsVal.num 1)]⟩ :
        StagedItem).context "origId").getD .undef) =
      jsToString (ctxVal ⟨[("ref", JsVal.num 42)], []⟩ ⟨"ref", "origId", none⟩) ∧
      getField (applyIdMapping [⟨[("origId", JsVal.num 42)], [("x", JsVal.num 1)]⟩]
        ⟨[("ref", JsVal.num 42)], []⟩ ⟨"ref", "origId", none⟩).finalData "ref" = none := by
  exact ⟨rfl, rfl⟩

/-- C2 amended: restricted to source-field values that survive the guard
(truthy and not lodash-empty — non-empty strings, arrays and objects;
numbers and booleans are always skipped): when no staged target record is
string-equal the record is returned unchanged (the failure is only a
logged diagnostic), and when some target record matches, the final
payload at fieldToSet (falling back to the source field name) receives
the first match's finalData — or the finalData of all matches when the
current value at that field is an array (the code tests the current
value, not the declared attribute type). -/
theorem applyIdMapping_resolves (targets : List StagedItem) (item : StagedItem)
    (m : IdMapping)
    (hv : jsTruthy (ctxVal item m) = true) (he : lodashIsEmpty (ctxVal item m) = false) :
    (matchesOf targets item m = [] → applyIdMapping targets item m = item) ∧
    (∀ t ∈ targets,
      jsToString ((getField t.context m.targetField).getD .undef) =
        jsToString (ctxVal item m) →
      getField (applyIdMapping targets item m).finalData (fieldKey m) =
        some (if currentIsArray item.finalData (fieldKey m) then
                JsVal.arr ((matchesOf targets item m).map (fun d => JsVal.obj d.finalData))
              else JsVal.obj ((matchesOf targets item m).headD default).finalData)) := by
  have hguard : (!jsTruthy (ctxVal item m) || lodashIsEmpty (ctxVal item m)) = false := by
    rw [hv, he]
    rfl
  constructor
  · intro hempty
    unfold applyIdMapping
    dsimp only
    rw [hguard]
    simp only [Bool.false_eq_true, if_false, hempty]
  · intro t ht hmatch
    have hmem : t ∈ matchesOf targets item m := by
      unfold matchesOf
      rw [List.mem_filter]
      refine ⟨ht, ?_⟩
      rw [hmatch]
      simp
    cases hfound : matchesOf targets item m with
    | nil => rw [hfound] at hmem; exact absurd hmem (List.not_mem_nil t)
    | cons f fs =>
        unfold applyIdMapping
        dsimp only
        rw [hguard]
        simp only [Bool.false_eq_true, if_false, hfound]
        by_cases harr : currentIsArray item.finalData (fieldKey m) = true
        · simp [harr, getField_setField_self]
        · rw [Bool.not_eq_true] at harr
          simp [harr, getField_setField_self]

/-- C2 witness: a string-valued reference "7" finds the unique matching
target record and the reference field receives that record's final
payload as a single object. -/
theorem applyIdMapping_resolves_witness :
    getField (applyIdMapping [⟨[("origId", JsVal.str "7")], [("x", JsVal.num 1)]⟩]
      ⟨[("ref", JsVal.str "7")], []⟩ ⟨"ref", "origId", none⟩).finalData "ref" =
      some (JsVal.obj [("x", JsVal.num 1)]) := by
  have h := (applyIdMapping_resolves [⟨[("origId", JsVal.str "7")], [("x", JsVal.num 1)]⟩]
    ⟨[("ref", JsVal.str "7")], []⟩ ⟨"ref", "origId", none⟩ rfl rfl).2
    ⟨[("origId", JsVal.str "7")], [("x", JsVal.num 1)]⟩ (by simp) rfl
  exact h

/-! ## Claim C9: resolver phases run after all preparation passes -/

theorem collectionEvents_pass (usersKey : String) (hasStage : String → Bool) (c : CollCfg) :
    ∀ e ∈ collectionEvents usersKey hasStage c, isPassEvent e = true := by
  intro e he
  unfold collectionEvents at he
  rw [List.mem_filter] at he
  rcases List.mem_append.mp he.1 with hh | hh
  · rw [List.mem_map] at hh
    obtain ⟨dk, _, hd⟩ := hh
    by_cases hu : getCollectionKey c.name = usersKey
    · rw [if_pos hu] at hd
      rw [← hd]
      rfl
    · rw [if_neg hu] at hd
      rw [← hd]
      rfl
  · rw [List.mem_map] at hh
    obtain ⟨dk, _, hd⟩ := hh
    rw [← hd]
    rfl

theorem flatten_map_single {β : Type} (dbId : String) (d : DbCfg) (seg : List β) :
    ∀ l : List DbCfg, l.filter (fun db => db.id = dbId) = [d] →
      (l.map (fun db => if db.id = dbId then seg else [])).flatten = seg := by
  intro l
  induction l with
  | nil => intro h; exact absurd h (by simp)
  | cons db rest ih =>
      intro h
      by_cases hid : db.id = dbId
      · rw [List.filter_cons_of_pos (by simp [hid])] at h
        have hrest : rest.filter (fun db => db.id = dbId) = [] := by
          rw [List.cons.injEq] at h
          exact h.2
        simp only [List.map_cons, List.flatten_cons, if_pos hid]
        have hzero : ∀ x ∈ rest, (if x.id = dbId then seg else ([] : List β)) = [] := by
          intro x hx
          have hxne : ¬(x.id = dbId) := by
            intro hxid
            have hxf : x ∈ rest.filter (fun db => db.id = dbId) :=
              List.mem_filter.mpr ⟨hx, by simp [hxid]⟩
            rw [hrest] at hxf
            exact absurd hxf (List.not_mem_nil x)
          rw [if_neg hxne]
        have hflat : (rest.map (fun db => if db.id = dbId then seg else [])).flatten = [] := by
          rw [List.flatten_eq_nil_iff]
          intro l' hl'
          rw [List.mem_map] at hl'
          obtain ⟨x, hx, hxl⟩ := hl'
          rw [← hxl]
          exact hzero x hx
        rw [hflat, List.append_nil]
      · rw [List.filter_cons_of_neg (by simp [hid])] at h
        simp only [List.map_cons, List.flatten_cons, if_neg hid]
        rw [ih h, List.nil_append]

/-- C9: in a run of start for a database that is configured exactly once
and has a configured collection list, every identity-merge-rewrite or
general-lookup step comes strictly after every create or update
preparation pass of every collection, and the identity-merge rewrite
comes strictly before the general lookup. -/
theorem startTrace_resolver_ordering (cfg : MigrationCfg) (dbId : String)
    (hasStage : String → Bool) (d : DbCfg) (cols : List CollCfg)
    (hdb : cfg.databases.filter (fun db => db.id = dbId) = [d])
    (hcols : cfg.collections = some cols) :
    (∀ (i j : Nat) (e : PipelineEvent),
      (startTrace cfg dbId hasStage)[i]? = some e → isPassEvent e = true →
      ((startTrace cfg dbId hasStage)[j]? = some PipelineEvent.mergedUsersRewrite ∨
        (startTrace cfg dbId hasStage)[j]? = some PipelineEvent.generalLookup) →
      i < j) ∧
    (∀ i j : Nat, (startTrace cfg dbId hasStage)[i]? = some PipelineEvent.mergedUsersRewrite →
      (startTrace cfg dbId hasStage)[j]? = some PipelineEvent.generalLookup → i < j) := by
  have hshape : startTrace cfg dbId hasStage =
      (cols.map (collectionEvents (getCollectionKey cfg.usersCollectionName) hasStage)).flatten
        ++ [PipelineEvent.mergedUsersRewrite, PipelineEvent.generalLookup] := by
    simp only [startTrace, hcols]
    exact flatten_map_single dbId d _ cfg.databases hdb
  set P := (cols.map (collectionEvents (getCollectionKey cfg.usersCollectionName) hasStage)).flatten
    with hPdef
  have hpass : ∀ e ∈ P, isPassEvent e = true := by
    intro e he
    rw [hPdef, List.mem_flatten] at he
    obtain ⟨l', hl', hel⟩ := he
    rw [List.mem_map] at hl'
    obtain ⟨c, _, hcl⟩ := hl'
    exact collectionEvents_pass _ _ c e (hcl ▸ hel)
  rw [hshape]
  have hidx_pass : ∀ i e,
      (P ++ [PipelineEvent.mergedUsersRewrite, PipelineEvent.generalLookup])[i]? = some e →
      isPassEvent e = true → i < P.length := by
    intro i e hi hp
    by_contra hge
    push_neg at hge
    rw [List.getElem?_append_right hge] at hi
    cases hk : i - P.length with
    | zero =>
        rw [hk] at hi
        simp only [List.getElem?_cons_zero, Option.some.injEq] at hi
        rw [← hi] at hp
        exact absurd hp (by decide)
    | succ k' =>
        cases k' with
        | zero =>
            rw [hk] at hi
            simp only [List.getElem?_cons_succ, List.getElem?_cons_zero,
              Option.some.injEq] at hi
            rw [← hi] at hp
            exact absurd hp (by decide)
        | succ k'' =>
            rw [hk] at hi
            simp only [List.getElem?_cons_succ, List.getElem?_nil] at hi
            exact Option.noConfusion hi
  have hidx_res : ∀ j,
      ((P ++ [PipelineEvent.mergedUsersRewrite, PipelineEvent.generalLookup])[j]? =
          some PipelineEvent.mergedUsersRewrite ∨
        (P ++ [PipelineEvent.mergedUsersRewrite, PipelineEvent.generalLookup])[j]? =
          some PipelineEvent.generalLookup) → P.length ≤ j := by
    intro j hj
    by_contra hlt
    push_neg at hlt
    rcases hj with hj | hj
    · rw [List.getElem?_append_left hlt] at hj
      have hmem := List.getElem?_mem hj
      exact absurd (hpass _ hmem) (by decide)
    · rw [List.getElem?_append_left hlt] at hj
      have hmem := List.getElem?_mem hj
      exact absurd (hpass _ hmem) (by decide)
  constructor
  · intro i j e hi hp hj
    exact Nat.lt_of_lt_of_le (hidx_pass i e hi hp) (hidx_res j hj)
  · intro i j hi hj
    have hi_ge := hidx_res i (Or.inl hi)
    have hj_ge := hidx_res j (Or.inr hj)
    rw [List.getElem?_append_right hi_ge] at hi
    rw [List.getElem?_append_right hj_ge] at hj
    have hi_eq : i = P.length := by
      cases hk : i - P.length with
      | zero => omega
      | succ k' =>
          cases k' with
          | zero =>
              rw [hk] at hi
              simp only [List.getElem?_cons_succ, List.getElem?_cons_zero,
                Option.some.injEq] at hi
              exact absurd hi (by decide)
          | succ k'' =>
              rw [hk] at hi
              simp only [List.getElem?_cons_succ, List.getElem?_nil] at hi
              exact Option.noConfusion hi
    have hj_eq : j = P.length + 1 := by
      cases hk : j - P.length with
      | zero =>
          rw [hk] at hj
          simp only [List.getElem?_cons_zero, Option.some.injEq] at hj
          exact absurd hj (by decide)
      | succ k' =>
          cases k' with
          | zero => omega
          | succ k'' =>
              rw [hk] at hj
              simp only [List.getElem?_cons_succ, List.getElem?_nil] at hj
              exact Option.noConfusion hj
    omega

/-- C9 witness: a single database "db1" with one collection holding one
create and one update definition; the merge rewrite sits at index 2,
after both passes, and the general lookup at index 3, after the rewrite. -/
theorem startTrace_resolver_ordering_witness :
    (startTrace ⟨[⟨"db1"⟩], some [⟨"A", [DefKind.create, DefKind.update]⟩], "Users"⟩
        "db1" (fun _ => true))[2]? = some PipelineEvent.mergedUsersRewrite ∧
      (startTrace ⟨[⟨"db1"⟩], some [⟨"A", [DefKind.create, DefKind.update]⟩], "Users"⟩
        "db1" (fun _ => true))[3]? = some PipelineEvent.generalLookup ∧
      (2 : Nat) < 3 := by
  refine ⟨by decide, by decide, ?_⟩
  exact (startTrace_resolver_ordering
    ⟨[⟨"db1"⟩], some [⟨"A", [DefKind.create, DefKind.update]⟩], "Users"⟩
    "db1" (fun _ => true) ⟨"db1"⟩ [⟨"A", [DefKind.create, DefKind.update]⟩]
    rfl rfl).2 2 3 (by decide) (by decide)

/-! ## Claim C3: deep-merge non-destructiveness -/

/-- Whether a value is a JS scalar for the merge's purposes: neither
nullish nor an array nor a plain object (strings, numbers, booleans and
Dates all take the plain-overwrite branch). -/
def isScalarJs : JsVal → Bool
  | .bool _ => true
  | .num _ => true
  | .str _ => true
  | .date _ => true
  | _ => false

theorem mergeFieldStepJs_shape (rec : JsVal → JsVal → Option JsVal)
    (src upd : JsVal) (k : String) (acc acc' : List (String × JsVal))
    (h : mergeFieldStepJs rec src upd k acc = some acc') :
    (∃ v, acc' = setField acc k v) ∨ acc' = acc := by
  unfold mergeFieldStepJs at h
  split at h
  · split at h
    · injection h with h
      exact Or.inl ⟨_, h.symm⟩
    · split at h
      · exact absurd h (by simp)
      · injection h with h
        exact Or.inl ⟨_, h.symm⟩
    · split at h
      · injection h with h
        exact Or.inl ⟨_, h.symm⟩
      · injection h with h
        exact Or.inr h.symm
    · split at h
      · injection h with h
        exact Or.inl ⟨_, h.symm⟩
      · injection h with h
        exact Or.inr h.symm
    · injection h with h
      exact Or.inl ⟨_, h.symm⟩
  · exact absurd h (by simp)

theorem mergeFieldsJs_untouched (rec : JsVal → JsVal → Option JsVal) (src upd : JsVal) :
    ∀ (ks : List String) (acc out : List (String × JsVal)),
      mergeFieldsJs rec src upd ks acc = some out → ∀ k, k ∉ ks →
      getField out k = getField acc k := by
  intro ks
  induction ks with
  | nil =>
      intro acc out h k _
      unfold mergeFieldsJs at h
      rw [Option.some.injEq] at h
      rw [← h]
  | cons k' ks' ih =>
      intro acc out h k hk
      unfold mergeFieldsJs at h
      cases hstep : mergeFieldStepJs rec src upd k' acc with
      | none => rw [hstep] at h; exact absurd h (by simp)
      | some acc' =>
          rw [hstep] at h
          have hk1 : k ≠ k' := fun hh => hk (hh ▸ List.mem_cons_self k' ks')
          have hk2 : k ∉ ks' := fun hh => hk (List.mem_cons_of_mem k' hh)
          rw [ih acc' out h k hk2]
          rcases mergeFieldStepJs_shape rec src upd k' acc acc' hstep with ⟨v, hv⟩ | hv
          · rw [hv]
            exact getField_setField_ne _ _ _ _ hk1
          · rw [hv]

theorem mergeFieldsJs_skips (rec : JsVal → JsVal → Option JsVal) (src upd : JsVal)
    (k : String)
    (hskip : ∀ acc, mergeFieldStepJs rec src upd k acc = some acc) :
    ∀ (ks : List String) (acc out : List (String × JsVal)),
      mergeFieldsJs rec src upd ks acc = some out →
      getField out k = getField acc k := by
  intro ks
  induction ks with
  | nil =>
      intro acc out h
      unfold mergeFieldsJs at h
      rw [Option.some.injEq] at h
      rw [← h]
  | cons k' ks' ih =>
      intro acc out h
      unfold mergeFieldsJs at h
      cases hstep : mergeFieldStepJs rec src upd k' acc with
      | none => rw [hstep] at h; exact absurd h (by simp)
      | some acc' =>
          rw [hstep] at h
          by_cases hk : k' = k
          · subst hk
            have : acc' = acc := by
              have := hskip acc
              rw [hstep, Option.some.injEq] at this
              exact this
            rw [ih acc' out h, this]
          · rw [ih acc' out h]
            rcases mergeFieldStepJs_shape rec src upd k' acc acc' hstep with ⟨v, hv⟩ | hv
            · rw [hv]
              exact getField_setField_ne _ _ _ _ (fun hh => hk hh.symm)
            · rw [hv]

theorem mergeFieldsJs_sets (rec : JsVal → JsVal → Option JsVal) (src upd : JsVal)
    (k : String) (v : JsVal)
    (hset : ∀ acc, mergeFieldStepJs rec src upd k acc = some (setField acc k v)) :
    ∀ (ks : List String) (acc out : List (String × JsVal)),
      mergeFieldsJs rec src upd ks acc = some out → k ∈ ks →
      getField out k = some v := by
  intro ks
  induction ks with
  | nil => intro acc out _ hk; exact absurd hk (List.not_mem_nil k)
  | cons k' ks' ih =>
      intro acc out h hk
      unfold mergeFieldsJs at h
      cases hstep : mergeFieldStepJs rec src upd k' acc with
      | none => rw [hstep] at h; exact absurd h (by simp)
      | some acc' =>
          rw [hstep] at h
          by_cases hmem : k ∈ ks'
          · exact ih acc' out h hmem
          · have hk' : k' = k := by
              rcases List.mem_cons.mp hk with hh | hh
              · exact hh.symm
              · exact absurd hh hmem
            subst hk'
            have hacc' : acc' = setField acc k' v := by
              have := hset acc
              rw [hstep, Option.some.injEq] at this
              exact this
            rw [mergeFieldsJs_untouched rec src upd ks' acc' out h k' hmem, hacc']
            exact getField_setField_self _ _ _

/-- C3: the deep merge never lets a null or absent update field destroy a
non-null source field; an array update field yields the de-duplicated
concatenation of the source and update arrays; a non-nullish scalar
update field overwrites. Stated for a merge that returned (the recursion
throws a TypeError when the update holds an object under a key whose
source value is null or undefined). -/
theorem mergeObjects_nondestructive (fuel : Nat) (A B rf : List (String × JsVal))
    (hm : mergeObjectsJs fuel (.obj A) (.obj B) = some (.obj rf)) :
    (∀ k v, getField A k = some v → isNullish v = false →
      (getField B k = none ∨ (∃ u, getField B k = some u ∧ isNullish u = true)) →
      getField rf k = some v) ∧
    (∀ k sa ua, getField A k = some (.arr sa) → getField B k = some (.arr ua) →
      getField rf k = some (.arr (setDedup (sa ++ ua)))) ∧
    (∀ k u, getField B k = some u → isScalarJs u = true → getField rf k = some u) := by
  cases fuel with
  | zero => exact absurd hm (by simp [mergeObjectsJs])
  | succ f =>
      have hkeys : keysJs (.obj B) = some (B.map Prod.fst) := rfl
      unfold mergeObjectsJs at hm
      rw [hkeys] at hm
      dsimp only at hm
      cases hfields : mergeFieldsJs (mergeObjectsJs f) (.obj A) (.obj B) (B.map Prod.fst) (spreadJs (.obj A)) with
      | none => rw [hfields] at hm; exact absurd hm (by simp)
      | some out =>
          rw [hfields] at hm
          simp only [Option.map_some', Option.some.injEq, JsVal.obj.injEq] at hm
          subst hm
          have hspread : spreadJs (.obj A) = A := rfl
          rw [hspread] at hfields
          have hgetA : ∀ k, getPropJs (.obj A) k = some ((getField A k).getD .undef) :=
            fun _ => rfl
          have hgetB : ∀ k, getPropJs (.obj B) k = some ((getField B k).getD .undef) :=
            fun _ => rfl
          refine ⟨?_, ?_, ?_⟩
          · intro k v hA hvn hB
            have hsv : (getField A k).getD .undef = v := by rw [hA]; rfl
            rcases hB with hB | ⟨u, hB, hun⟩
            · have hkmem : k ∉ B.map Prod.fst := (getField_eq_none_iff B k).mp hB
              rw [mergeFieldsJs_untouched (mergeObjectsJs f) (.obj A) (.obj B) (B.map Prod.fst) A out
                hfields k hkmem]
              exact hA
            · have hskip : ∀ acc, mergeFieldStepJs (mergeObjectsJs f) (.obj A) (.obj B) k acc = some acc := by
                intro acc
                unfold mergeFieldStepJs
                rw [hgetA k, hgetB k]
                dsimp only
                rw [hsv, hB]
                dsimp only [Option.getD_some]
                cases u with
                | null =>
                    cases v with
                    | null => exact absurd hvn (by simp [isNullish])
                    | undef => exact absurd hvn (by simp [isNullish])
                    | bool b => rfl
                    | num n => rfl
                    | str s => rfl
                    | date t => rfl
                    | arr es => rfl
                    | obj fs => rfl
                | undef =>
                    cases v with
                    | null => exact absurd hvn (by simp [isNullish])
                    | undef => exact absurd hvn (by simp [isNullish])
                    | bool b => rfl
                    | num n => rfl
                    | str s => rfl
                    | date t => rfl
                    | arr es => rfl
                    | obj fs => rfl
                | bool b => exact absurd hun (by simp [isNullish])
                | num n => exact absurd hun (by simp [isNullish])
                | str s => exact absurd hun (by simp [isNullish])
                | date t => exact absurd hun (by simp [isNullish])
                | arr es => exact absurd hun (by simp [isNullish])
                | obj fs => exact absurd hun (by simp [isNullish])
              rw [mergeFieldsJs_skips (mergeObjectsJs f) (.obj A) (.obj B) k hskip (B.map Prod.fst) A out
                hfields]
              exact hA
          · intro k sa ua hA hB
            have hset : ∀ acc, mergeFieldStepJs (mergeObjectsJs f) (.obj A) (.obj B) k acc =
                some (setField acc k (.arr (setDedup (sa ++ ua)))) := by
              intro acc
              unfold mergeFieldStepJs
              rw [hgetA k, hgetB k, hA, hB]
              rfl
            exact mergeFieldsJs_sets (mergeObjectsJs f) (.obj A) (.obj B) k _ hset
              (B.map Prod.fst) A out hfields (mem_of_getField_some hB)
          · intro k u hB hu
            have hset : ∀ acc, mergeFieldStepJs (mergeObjectsJs f) (.obj A) (.obj B) k acc =
                some (setField acc k u) := by
              intro acc
              unfold mergeFieldStepJs
              rw [hgetA k, hgetB k, hB]
              dsimp only [Option.getD_some]
              cases u with
              | bool b => rfl
              | num n => rfl
              | str s => rfl
              | date t => rfl
              | null => exact absurd hu (by simp [isScalarJs])
              | undef => exact absurd hu (by simp [isScalarJs])
              | arr es => exact absurd hu (by simp [isScalarJs])
              | obj fs => exact absurd hu (by simp [isScalarJs])
            exact mergeFieldsJs_sets (mergeObjectsJs f) (.obj A) (.obj B) k u hset
              (B.map Prod.fst) A out hfields (mem_of_getField_some hB)

/-- C3 witness: the update's null "keep" leaves the source's 1 in place,
the arrays concatenate de-duplicated, and the non-null scalar "b"
overwrites. -/
theorem mergeObjects_nondestructive_witness :
    getField [("keep", JsVal.num 1), ("xs", JsVal.arr [JsVal.num 1, JsVal.num 2]),
      ("b", JsVal.str "z")] "keep" = some (JsVal.num 1) ∧
    getField [("keep", JsVal.num 1), ("xs", JsVal.arr [JsVal.num 1, JsVal.num 2]),
      ("b", JsVal.str "z")] "xs" = some (JsVal.arr (setDedup ([JsVal.num 1] ++
        [JsVal.num 1, JsVal.num 2]))) ∧
    getField [("keep", JsVal.num 1), ("xs", JsVal.arr [JsVal.num 1, JsVal.num 2]),
      ("b", JsVal.str "z")] "b" = some (JsVal.str "z") := by
  have h := mergeObjects_nondestructive 1
    [("keep", JsVal.num 1), ("xs", JsVal.arr [JsVal.num 1])]
    [("keep", JsVal.null), ("xs", JsVal.arr [JsVal.num 1, JsVal.num 2]),
      ("b", JsVal.str "z")]
    [("keep", JsVal.num 1), ("xs", JsVal.arr [JsVal.num 1, JsVal.num 2]),
      ("b", JsVal.str "z")]
    rfl
  refine ⟨?_, ?_, ?_⟩
  · exact h.1 "keep" (JsVal.num 1) rfl rfl (Or.inr ⟨JsVal.null, rfl, rfl⟩)
  · exact h.2.1 "xs" [JsVal.num 1] [JsVal.num 1, JsVal.num 2] rfl rfl
  · exact h.2.2 "b" (JsVal.str "z") rfl rfl

/-! ## Claim C10: mergeObjects mutates neither argument -/

/-- The store after a call extends the store before it: no pre-existing
entry is modified, entries are only appended. -/
def storeExtends (s s' : Store) : Prop :=
  s.length ≤ s'.length ∧ ∀ i, i < s.length → s'[i]? = s[i]?

theorem storeExtends_refl (s : Store) : storeExtends s s :=
  ⟨le_refl _, fun _ _ => rfl⟩

theorem storeExtends_trans {s1 s2 s3 : Store} (h1 : storeExtends s1 s2)
    (h2 : storeExtends s2 s3) : storeExtends s1 s3 :=
  ⟨le_trans h1.1 h2.1, fun i hi => (h2.2 i (lt_of_lt_of_le hi h1.1)).trans (h1.2 i hi)⟩

theorem storeExtends_append (s l : Store) : storeExtends s (s ++ l) := by
  constructor
  · simp
  · intro i hi
    exact List.getElem?_append_left hi

/-- The frame property of the heap-level merge at a given fuel. -/
def MergePreserves (f : Nat) : Prop :=
  ∀ s a b s' r, mergeObjectsH f s a b = some (s', r) →
    storeExtends s s' ∧ ∃ n, r = HVal.href n ∧ s.length ≤ n

theorem mergeFieldStepH_extends (rec : Store → HVal → HVal → Option (Store × HVal))
    (hrec : ∀ s a b s' r, rec s a b = some (s', r) → storeExtends s s')
    (s : Store) (src upd : HVal) (k : String) (acc : List (String × HVal))
    (s' : Store) (acc' : List (String × HVal))
    (h : mergeFieldStepH rec s src upd k acc = some (s', acc')) :
    storeExtends s s' := by
  unfold mergeFieldStepH at h
  split at h
  · split at h
    · injection h with h
      rw [Prod.mk.injEq] at h
      rw [← h.1]
      exact storeExtends_append _ _
    · split at h
      · split at h
        · split at h
          · exact absurd h (by simp)
          · rename_i s2 mv hrec_eq
            injection h with h
            rw [Prod.mk.injEq] at h
            rw [← h.1]
            exact hrec _ _ _ _ _ hrec_eq
        · injection h with h
          rw [Prod.mk.injEq] at h
          rw [← h.1]
          exact storeExtends_refl s
      · split at h
        · injection h with h
          rw [Prod.mk.injEq] at h
          rw [← h.1]
          exact storeExtends_refl s
        · injection h with h
          rw [Prod.mk.injEq] at h
          rw [← h.1]
          exact storeExtends_refl s
      · split at h
        · injection h with h
          rw [Prod.mk.injEq] at h
          rw [← h.1]
          exact storeExtends_refl s
        · injection h with h
          rw [Prod.mk.injEq] at h
          rw [← h.1]
          exact storeExtends_refl s
      · injection h with h
        rw [Prod.mk.injEq] at h
        rw [← h.1]
        exact storeExtends_refl s
  · exact absurd h (by simp)

theorem mergeFieldsH_extends (rec : Store → HVal → HVal → Option (Store × HVal))
    (hrec : ∀ s a b s' r, rec s a b = some (s', r) → storeExtends s s')
    (src upd : HVal) :
    ∀ (ks : List String) (s : Store) (acc : List (String × HVal))
      (out : Store × List (String × HVal)),
      mergeFieldsH rec src upd ks s acc = some out → storeExtends s out.1 := by
  intro ks
  induction ks with
  | nil =>
      intro s acc out h
      unfold mergeFieldsH at h
      injection h with h
      rw [← h]
      exact storeExtends_refl s
  | cons k ks' ih =>
      intro s acc out h
      unfold mergeFieldsH at h
      cases hstep : mergeFieldStepH rec s src upd k acc with
      | none => rw [hstep] at h; exact absurd h (by simp)
      | some pr =>
          obtain ⟨s2, acc2⟩ := pr
          rw [hstep] at h
          dsimp only at h
          exact storeExtends_trans
            (mergeFieldStepH_extends rec hrec s src upd k acc s2 acc2 hstep)
            (ih s2 acc2 out h)

theorem mergePreserves_all : ∀ f, MergePreserves f := by
  intro f
  induction f with
  | zero =>
      intro s a b s' r h
      exact absurd h (by simp [mergeObjectsH])
  | succ f ih =>
      intro s a b s' r h
      unfold mergeObjectsH at h
      cases hsp : spreadH s a with
      | none => rw [hsp] at h; exact absurd h (by simp)
      | some init =>
          rw [hsp] at h
          cases hk : keysH s b with
          | none => rw [hk] at h; exact absurd h (by simp)
          | some keys =>
              rw [hk] at h
              dsimp only at h
              cases hf : mergeFieldsH (mergeObjectsH f) a b keys s init with
              | none => rw [hf] at h; exact absurd h (by simp)
              | some pr =>
                  obtain ⟨s1, fields⟩ := pr
                  rw [hf] at h
                  dsimp only at h
                  injection h with h
                  rw [Prod.mk.injEq] at h
                  obtain ⟨h1, h2⟩ := h
                  have hrec : ∀ s a b s' r, mergeObjectsH f s a b = some (s', r) →
                      storeExtends s s' :=
                    fun s a b s' r hh => (ih s a b s' r hh).1
                  have hext : storeExtends s s1 :=
                    mergeFieldsH_extends (mergeObjectsH f) hrec a b keys s init
                      (s1, fields) hf
                  constructor
                  · rw [← h1]
                    exact storeExtends_trans hext (storeExtends_append s1 [.hobj fields])
                  · exact ⟨s1.length, h2.symm, hext.1⟩

/-- C10: against the explicit heap, a merge that returns leaves every
pre-existing store entry — in particular the source and the update
objects and everything they reference — exactly as it was, and its result
is a reference to a freshly allocated object: the function never mutates
its arguments, so a call made only for its return value's effect is a
no-op on existing state. -/
theorem mergeObjectsH_no_mutation (fuel : Nat) (s : Store) (a b : HVal)
    (s' : Store) (r : HVal)
    (h : mergeObjectsH fuel s a b = some (s', r)) :
    (∀ i, i < s.length → s'[i]? = s[i]?) ∧
      ∃ n, r = HVal.href n ∧ s.length ≤ n := by
  have hp := mergePreserves_all fuel s a b s' r h
  exact ⟨hp.1.2, hp.2⟩

/-- C10 witness: merging the object at address 0 with the object at
address 1 leaves both stored objects untouched and allocates the result
at the fresh address 2. -/
theorem mergeObjectsH_no_mutation_witness :
    ([HObj.hobj [("x", HVal.hnum 1)], HObj.hobj [("x", HVal.hnum 2)],
        HObj.hobj [("x", HVal.hnum 2)]] : Store)[0]? =
      ([HObj.hobj [("x", HVal.hnum 1)], HObj.hobj [("x", HVal.hnum 2)]] : Store)[0]? ∧
    ([HObj.hobj [("x", HVal.hnum 1)], HObj.hobj [("x", HVal.hnum 2)],
        HObj.hobj [("x", HVal.hnum 2)]] : Store)[1]? =
      ([HObj.hobj [("x", HVal.hnum 1)], HObj.hobj [("x", HVal.hnum 2)]] : Store)[1]? := by
  have h := mergeObjectsH_no_mutation 1
    [HObj.hobj [("x", HVal.hnum 1)], HObj.hobj [("x", HVal.hnum 2)]]
    (HVal.href 0) (HVal.href 1)
    [HObj.hobj [("x", HVal.hnum 1)], HObj.hobj [("x", HVal.hnum 2)],
      HObj.hobj [("x", HVal.hnum 2)]]
    (HVal.href 2) rfl
  exact ⟨h.1 0 (by decide), h.1 1 (by decide)⟩

end DataLoader
